import Mathlib

set_option autoImplicit false

/-!
Shallow embedding of `httpie/sessions.py`: persistent, JSON-serialized HTTP
sessions (headers, cookies, auth) stored per host on disk, applied to outgoing
requests and conditionally re-persisted.

Python dictionaries are modelled as insertion-ordered association lists with
unique keys; the filesystem is an explicit record of directories and session
files threaded through every stateful operation; Python exceptions are
modelled with `Except PyError`.
-/

namespace Httpie

/-- Python-style string-keyed dictionary: association list in insertion order. -/
abbrev StrDict := List (String × String)

/-- Python dict assignment `d[k] = v`: overwrite in place if the key exists, else append. -/
def setIn {β : Type} : List (String × β) → String → β → List (String × β)
  | [], k, v => [(k, v)]
  | (k₀, v₀) :: rest, k, v =>
    if k₀ = k then (k₀, v) :: rest else (k₀, v₀) :: setIn rest k v

/-- Python `d.setdefault(k, dflt)` followed by replacing `d[k]` with `f d[k]`. -/
def setInWith {β : Type} : List (String × β) → String → β → (β → β) → List (String × β)
  | [], k, d, f => [(k, f d)]
  | (k₀, v₀) :: rest, k, d, f =>
    if k₀ = k then (k₀, f v₀) :: rest else (k₀, v₀) :: setInWith rest k d f

/-- Python `d.update(e)`: assign every entry of `e` into `d`, in `e`'s order. -/
def dictUpdate {β : Type} (d e : List (String × β)) : List (String × β) :=
  e.foldl (fun acc kv => setIn acc kv.1 kv.2) d

/-- An in-memory cookie of the external cookie-jar library.  `expired` models
the value of `is_expired()` at the (fixed) time `clear_expired_cookies` runs. -/
structure Cookie where
  name : String
  value : String
  domain : String
  path : String
  expired : Bool
deriving Repr, DecidableEq

/-- One serialized cookie entry: the attribute dictionary stored under the
cookie's name (the excluded bookkeeping attributes, among them `name`, are
not stored).  `value?` models presence of the `value` key: `pop('value')`
removes it from the underlying dict. -/
structure CookieDict where
  value? : Option String
  domain : String
  path : String
  expired : Bool
deriving Repr, DecidableEq

/-- The cookie jar's internal nested mapping `_cookies : domain → path → name → cookie`,
each level an insertion-ordered dictionary. -/
abbrev Jar := List (String × List (String × List (String × Cookie)))

set_option synthInstance.maxSize 5000 in
instance : DecidableEq Jar :=
  inferInstanceAs (DecidableEq (List (String × List (String × List (String × Cookie)))))

/-- `jar.set_cookie(c)`: `_cookies[c.domain][c.path][c.name] = c`, creating the
intermediate buckets if absent (as the cookie-jar library does). -/
def Jar.setCookie (jar : Jar) (c : Cookie) : Jar :=
  setInWith jar c.domain [] (fun paths =>
    setInWith paths c.path [] (fun names => setIn names c.name c))

/-- Iteration order of the jar: domain buckets, then path buckets, then names. -/
def Jar.toList (jar : Jar) : List Cookie :=
  jar.flatMap (fun dp => dp.2.flatMap (fun pn => pn.2.map Prod.snd))

/-- `jar.clear_expired_cookies()`: drop every cookie whose `is_expired()` holds. -/
def Jar.clearExpired (jar : Jar) : Jar :=
  jar.map (fun dp => (dp.1, dp.2.map (fun pn => (pn.1, pn.2.filter (fun nc => !nc.2.expired)))))

/-- The (name, value) pairs of a jar, in iteration order. -/
def Jar.pairs (jar : Jar) : List (String × String) :=
  jar.toList.map (fun c => (c.name, c.value))

/-- The cookies of one domain bucket, in iteration order. -/
def pathsCookies (ps : List (String × List (String × Cookie))) : List Cookie :=
  ps.flatMap (fun pn => pn.2.map Prod.snd)

/-- The jar invariant the cookie-jar library maintains: every stored cookie is
keyed by its own name. -/
def JarWF (jar : Jar) : Prop :=
  ∀ dp ∈ jar, ∀ pn ∈ dp.2, ∀ nc ∈ pn.2, nc.1 = nc.2.name

deriving instance DecidableEq for Except

/-- Python exceptions raised by this code. -/
inductive PyError
  | assertionError
  | typeError
  | keyError (k : String)
  | transport (msg : String)
deriving Repr, DecidableEq

/-- Credential scheme: `HTTPBasicAuth` or `HTTPDigestAuth`. -/
inductive AuthType
  | basic
  | digest
deriving Repr, DecidableEq

/-- A credential object of the HTTP client library (scheme + username + password). -/
structure AuthCred where
  type : AuthType
  username : Option String
  password : Option String
deriving Repr, DecidableEq

/-- The session's stored `auth` record: `type` is `null`, `"basic"` or `"digest"`. -/
structure AuthRecord where
  type : Option AuthType
  username : Option String
  password : Option String
deriving Repr, DecidableEq

/-- `Session.auth` setter: store the credential's scheme, username and password. -/
def authEncode (cred : AuthCred) : AuthRecord :=
  { type := some cred.type, username := cred.username, password := cred.password }

/-- `Session.auth` getter: `None` when the stored type is null, otherwise the
corresponding credential object rebuilt from username/password. -/
def authDecode (r : AuthRecord) : Option AuthCred :=
  match r.type with
  | none => none
  | some t => some { type := t, username := r.username, password := r.password }

/-- The serializable attributes of a cookie (everything except the excluded
bookkeeping set, which contains `name`). -/
def dictOfCookie (c : Cookie) : CookieDict :=
  { value? := some c.value, domain := c.domain, path := c.path, expired := c.expired }

/-- `Session.cookies` setter: reset the stored mapping, then walk the jar's
nested domain/path/name buckets in iteration order assigning
`mapping[cookie name] = attributes` — keyed by name only. -/
def cookiesEncode (jar : Jar) : List (String × CookieDict) :=
  jar.toList.foldl (fun m c => setIn m c.name (dictOfCookie c)) []

/-- `create_cookie(name, value, **attributes)`. -/
def cookieOf (name : String) (v : String) (cd : CookieDict) : Cookie :=
  { name := name, value := v, domain := cd.domain, path := cd.path, expired := cd.expired }

/-- Loop body of the `Session.cookies` getter: for each stored entry, pop the
`value` key out of the attribute dict (a `KeyError` if it is gone) and insert
the rebuilt cookie into the jar.  Returns the jar and the mutated mapping. -/
def cookiesDecodeAux : List (String × CookieDict) → Jar →
    Except PyError (Jar × List (String × CookieDict))
  | [], jar => .ok (jar, [])
  | (n, cd) :: rest, jar =>
    match cd.value? with
    | none => .error (.keyError "value")
    | some v =>
      match cookiesDecodeAux rest (jar.setCookie (cookieOf n v cd)) with
      | .error e => .error e
      | .ok (jar₁, rest₁) => .ok (jar₁, (n, { cd with value? := none }) :: rest₁)

/-- `Session.cookies` getter: rebuild the jar from the stored mapping, then
purge expired cookies before returning it. -/
def cookiesDecode (stored : List (String × CookieDict)) :
    Except PyError (Jar × List (String × CookieDict)) :=
  match cookiesDecodeAux stored [] with
  | .error e => .error e
  | .ok (jar, stored₁) => .ok (jar.clearExpired, stored₁)

/-- Characters admitted by `Host.VALID_NAME_PATTERN`, the class `[a-zA-Z0-9_.:-]`. -/
def hostNameChar (c : Char) : Bool :=
  c.isAlpha || c.isDigit || c = '_' || c = '.' || c = ':' || c = '-'

/-- Characters admitted by `Session.VALID_NAME_PATTERN`, the class `[a-zA-Z0-9_.-]`. -/
def sessionNameChar (c : Char) : Bool :=
  c.isAlpha || c.isDigit || c = '_' || c = '.' || c = '-'

/-- Python `re.match` against a pattern of the shape `^[class]+$`: at least one
character, all from the class; `$` also matches just before one trailing newline. -/
def matchesWholePattern (p : Char → Bool) (s : String) : Bool :=
  let cs := s.data
  let body := if cs.getLast? = some (Char.ofNat 10) then cs.dropLast else cs
  !body.isEmpty && body.all p

def isValidHostName (s : String) : Bool := matchesWholePattern hostNameChar s

def isValidSessionName (s : String) : Bool := matchesWholePattern sessionNameChar s

/-- The in-memory content of a session record (mirrors the session file's JSON). -/
structure SessionData where
  headers : StrDict
  cookies : List (String × CookieDict)
  auth : AuthRecord
deriving Repr, DecidableEq

/-- The defaults installed by `Session.__init__`: empty headers and cookies, null auth. -/
def SessionData.fresh : SessionData :=
  { headers := [], cookies := [], auth := { type := none, username := none, password := none } }

/-- The filesystem visible to this module: a set of directories and the session
files with their (decoded) contents. -/
structure FS where
  dirs : List String
  files : List (String × SessionData)
deriving Repr, DecidableEq

/-- `os.makedirs(p)` with `EEXIST` ignored: idempotent directory creation. -/
def FS.mkdirp (fs : FS) (p : String) : FS :=
  if p ∈ fs.dirs then fs else { fs with dirs := fs.dirs ++ [p] }

def FS.read (fs : FS) (p : String) : Option SessionData := fs.files.lookup p

def FS.write (fs : FS) (p : String) (d : SessionData) : FS :=
  { fs with files := setIn fs.files p d }

/-- `os.unlink`-style removal of one file. -/
def FS.removeFile (fs : FS) (p : String) : FS :=
  { fs with files := fs.files.filter (fun e => e.1 != p) }

/-- String prefix test on the underlying characters. -/
def strStartsWith (s pre : String) : Bool := List.isPrefixOf pre.data s.data

/-- `shutil.rmtree(p)`: remove the directory and everything under it. -/
def FS.rmtree (fs : FS) (p : String) : FS :=
  { dirs := fs.dirs.filter (fun d => !(d == p || strStartsWith d (p ++ "/"))),
    files := fs.files.filter (fun e => !(strStartsWith e.1 (p ++ "/"))) }

/-- Modelled from the spec: `DEFAULT_CONFIG_DIR` lives in `config.py`, which is
not part of this tree — "a well-known location under the tool's config directory". -/
def DEFAULT_CONFIG_DIR : String := "~/.httpie"

def SESSIONS_DIR_NAME : String := "sessions"

def DEFAULT_SESSIONS_DIR : String := DEFAULT_CONFIG_DIR ++ "/" ++ SESSIONS_DIR_NAME

structure Host where
  name : String
  root_dir : String
deriving Repr, DecidableEq

/-- `Host.__init__`: the `assert VALID_NAME_PATTERN.match(name)` runs first and the
constructor performs no filesystem access — the filesystem is returned unchanged
on both outcomes. -/
def Host.construct (name root_dir : String) (fs : FS) : Except PyError Host × FS :=
  if isValidHostName name then (.ok { name := name, root_dir := root_dir }, fs)
  else (.error .assertionError, fs)

/-- `name.replace(':', '_')`: the directory name used for a host. -/
def replaceColon (s : String) : String :=
  String.mk (s.data.map (fun c => if c = ':' then '_' else c))

/-- The string returned by the `Host.path` property. -/
def Host.pathStr (h : Host) : String := h.root_dir ++ "/" ++ replaceColon h.name

/-- The `Host.path` property: `os.path.join(root_dir, name.replace(':', '_'))`,
created with `os.makedirs` (pre-existence ignored) before being returned. -/
def Host.path (h : Host) (fs : FS) : String × FS :=
  (h.pathStr, fs.mkdirp h.pathStr)

/-- `Host.delete`: `shutil.rmtree(self.path)` — note that the `path` property
creates the directory before `rmtree` removes it. -/
def Host.delete (h : Host) (fs : FS) : FS :=
  let (p, fs₁) := h.path fs
  fs₁.rmtree p

/-- Replacement core of `re.sub` with pattern "underscore, digits, end":
if the list ends in a nonempty run of digits directly preceded by `_`, that
underscore becomes `:`; otherwise the list is unchanged. -/
def realNameCore (cs : List Char) : List Char :=
  let rev := cs.reverse
  let ds := rev.takeWhile Char.isDigit
  match rev.dropWhile Char.isDigit with
  | '_' :: rest => if ds.isEmpty then cs else rest.reverse ++ ':' :: ds.reverse
  | _ => cs

/-- Python `$` (without MULTILINE) matches at the end of the string or just
before one final newline, so the rewrite acts with one trailing newline set
aside (a digit run can never end at a newline). -/
def realNameChars (cs : List Char) : List Char :=
  if cs.getLast? = some (Char.ofNat 10) then realNameCore cs.dropLast ++ [Char.ofNat 10]
  else realNameCore cs

/-- `re.sub` turning a `_digits` suffix of a directory name back into `:digits`. -/
def realNameOfDir (s : String) : String := String.mk (realNameChars s.data)

/-- Lexicographic comparison on code points, as Python string sorting uses. -/
def leChars : List Char → List Char → Bool
  | [], _ => true
  | _ :: _, [] => false
  | a :: as, b :: bs => if a = b then leChars as bs else decide (a.toNat < b.toNat)

def insertSorted (s : String) : List String → List String
  | [] => [s]
  | t :: ts => if leChars s.data t.data then s :: t :: ts else t :: insertSorted s ts

/-- Python `sorted` on strings. -/
def sortStrings (l : List String) : List String := l.foldr insertSorted []

/-- Immediate child directory names under a root (`glob.glob1(root_dir, '*')`
filtered by `os.path.isdir`). -/
def FS.childDirNames (fs : FS) (root : String) : List String :=
  fs.dirs.filterMap (fun d =>
    let pre := (root ++ "/").data
    if List.isPrefixOf pre d.data then
      let rest := d.data.drop pre.length
      if !rest.isEmpty && rest.all (fun c => c != '/') && rest.head? != some '.' then
        some (String.mk rest)
      else none
    else none)

/-- `Host.all`: the host names yielded for a root directory — sorted subdirectory
names with a `_digits` suffix turned back into `:digits`. -/
def Host.allNames (root_dir : String) (fs : FS) : List String :=
  (sortStrings (fs.childDirNames root_dir)).map realNameOfDir

/-- Whether a character list ends in `_` followed by at least one digit (the
shape `re.sub` in `Host.all` rewrites). -/
def endsUnderscoreDigitsChars (cs : List Char) : Bool :=
  match cs.reverse.dropWhile Char.isDigit with
  | '_' :: _ => !(cs.reverse.takeWhile Char.isDigit).isEmpty
  | _ => false

/-- Whether `re.sub(r'_(\d+), end', ...)` finds a match in a name: the name,
with one trailing newline set aside (Python `$`), ends in `_` plus digits. -/
def endsUnderscoreDigits (s : String) : Bool :=
  endsUnderscoreDigitsChars
    (if s.data.getLast? = some (Char.ofNat 10) then s.data.dropLast else s.data)

/-- The side condition claim C5 places on a host name, following its words:
the name's only colon (if any) precedes a trailing run of digits. -/
def hostColonCond (s : String) : Bool :=
  if s.data.all (fun c => c != ':') then true
  else
    (s.data.count ':' == 1) &&
      (match s.data.reverse.dropWhile Char.isDigit with
       | ':' :: _ => !(s.data.reverse.takeWhile Char.isDigit).isEmpty
       | _ => false)

structure Session where
  host : Host
  name : String
  data : SessionData
deriving Repr, DecidableEq

/-- `Session.__init__`: `assert VALID_NAME_PATTERN.match(name)` runs first
(`re.match` on `None` raises a `TypeError`), then the in-memory defaults are
installed; no filesystem access takes place. -/
def Session.construct (host : Host) (name : Option String) (fs : FS) :
    Except PyError Session × FS :=
  match name with
  | none => (.error .typeError, fs)
  | some n =>
    if isValidSessionName n then
      (.ok { host := host, name := n, data := SessionData.fresh }, fs)
    else (.error .assertionError, fs)

/-- The session file path: `host directory / name + ".json"`. -/
def Session.pathStr (s : Session) : String := s.host.pathStr ++ "/" ++ s.name ++ ".json"

/-- The `Session.path` property, reached through `directory` = `host.path`
(which creates the host directory). -/
def Session.path (s : Session) (fs : FS) : String × FS :=
  let (d, fs₁) := s.host.path fs
  (d ++ "/" ++ s.name ++ ".json", fs₁)

/-- Modelled from the spec: `BaseConfigDict.load` lives in `config.py`, which is
not part of this tree — read the file at the session's path if present, else the
in-memory defaults stand. -/
def Session.load (s : Session) (fs : FS) : Session × FS :=
  let (p, fs₁) := s.path fs
  match fs₁.read p with
  | some d => ({ s with data := d }, fs₁)
  | none => (s, fs₁)

/-- Modelled from the spec: the `is_new` flag of the config primitive — true iff
no file yet exists at the session's path. -/
def Session.checkNew (s : Session) (fs : FS) : Bool × FS :=
  let (p, fs₁) := s.path fs
  ((fs₁.read p).isNone, fs₁)

/-- Modelled from the spec: `BaseConfigDict.save` — serialize the current state
to the session's file path. -/
def Session.save (s : Session) (fs : FS) : FS :=
  let (p, fs₁) := s.path fs
  fs₁.write p s.data

/-- Modelled from the spec: the config primitive's delete — remove the session's file. -/
def Session.delete (s : Session) (fs : FS) : FS :=
  let (p, fs₁) := s.path fs
  fs₁.removeFile p

/-- The parts of `request_kwargs` this module reads and writes. -/
structure Request where
  url_netloc : String
  headers : StrDict
  auth : Option AuthCred
deriving Repr, DecidableEq

structure Response where
  id : Nat
deriving Repr, DecidableEq

/-- `urlparse(url).netloc.split('@')[-1]`: strip the authentication-info
portion, keeping the suffix after the last `@` (the whole string if none). -/
def afterLastAt (s : String) : String :=
  String.mk ((s.data.reverse.takeWhile (fun c => c != '@')).reverse)

/-- `request_kwargs['headers'].get('Host', None) or netloc.split('@')[-1]`
(with Python truthiness: an empty `Host` header falls through). -/
def requestHostName (req : Request) : String :=
  match req.headers.lookup "Host" with
  | some h => if h = "" then afterLastAt req.url_netloc else h
  | none => afterLastAt req.url_netloc

/-- The external HTTP client: given the merged request and the session's cookie
jar, returns a response together with the client session's resulting cookie jar,
or raises a transport error. -/
abbrev HttpClient := Request → Jar → Except PyError (Response × Jar)

/-- `get_response(name, request_kwargs, config_dir, read_only)`.  Returns the
result (response or propagated exception), the final filesystem, and the list
of requests issued to the external HTTP client. -/
def get_response (client : HttpClient) (name : String) (req : Request)
    (config_dir : String) (read_only : Bool) (fs : FS) :
    Except PyError Response × FS × List Request :=
  let sessions_dir := config_dir ++ "/" ++ SESSIONS_DIR_NAME
  match Host.construct (requestHostName req) sessions_dir fs with
  | (.error e, fs₁) => (.error e, fs₁, [])
  | (.ok host, fs₁) =>
    match Session.construct host (some name) fs₁ with
    | (.error e, fs₂) => (.error e, fs₂, [])
    | (.ok session₀, fs₂) =>
      let (session₁, fs₃) := session₀.load fs₂
      let merged := dictUpdate session₁.data.headers req.headers
      let session₂ : Session := { session₁ with data := { session₁.data with headers := merged } }
      let req₁ : Request := { req with headers := merged }
      let (session₃, req₂) :=
        match req.auth with
        | some cred =>
          ({ session₂ with data := { session₂.data with auth := authEncode cred } }, req₁)
        | none =>
          match authDecode session₂.data.auth with
          | some cred => (session₂, { req₁ with auth := some cred })
          | none => (session₂, req₁)
      match cookiesDecode session₃.data.cookies with
      | .error e => (.error e, fs₃, [])
      | .ok (jar, cookiesMut) =>
        let session₄ : Session := { session₃ with data := { session₃.data with cookies := cookiesMut } }
        match client req₂ jar with
        | .error e => (.error e, fs₃, [req₂])
        | .ok (resp, resultJar) =>
          let (isNew, fs₄) := session₄.checkNew fs₃
          if isNew || !read_only then
            let session₅ : Session :=
              { session₄ with data := { session₄.data with cookies := cookiesEncode resultJar } }
            (.ok resp, session₅.save fs₄, [req₂])
          else (.ok resp, fs₄, [req₂])

/-- `command_session_delete(hostname, session_name=None)`, exactly as written:
the single-session deletion statements sit inside the `if not session_name`
branch, so they run only when no (or an empty) session name was given. -/
def command_session_delete (hostname : String) (session_name : Option String) (fs : FS) :
    Except PyError Unit × FS :=
  match Host.construct hostname DEFAULT_SESSIONS_DIR fs with
  | (.error e, fs₁) => (.error e, fs₁)
  | (.ok host, fs₁) =>
    if session_name = none ∨ session_name = some "" then
      let fs₂ := host.delete fs₁
      match Session.construct host session_name fs₂ with
      | (.error e, fs₃) => (.error e, fs₃)
      | (.ok session, fs₃) => (.ok (), session.delete fs₃)
    else (.ok (), fs₁)

/-! Observers naming the intermediate values `get_response` computes, used to
state theorems about it. -/

/-- The host directory `get_response` resolves for a request. -/
def hostDirOf (config_dir hostName : String) : String :=
  config_dir ++ "/" ++ SESSIONS_DIR_NAME ++ "/" ++ replaceColon hostName

/-- The session file path `get_response` resolves. -/
def sessionPathOf (config_dir hostName sname : String) : String :=
  hostDirOf config_dir hostName ++ "/" ++ sname ++ ".json"

/-- The session data in effect after `load`: the file's content if present,
else the constructor's defaults. -/
def loadedDataOf (fs : FS) (config_dir hostName sname : String) : SessionData :=
  (fs.read (sessionPathOf config_dir hostName sname)).getD SessionData.fresh

/-- The cookie rebuilt from one stored entry (its `value` key is present in
every well-formed session). -/
def cookieOfEntry (e : String × CookieDict) : Cookie :=
  cookieOf e.1 (e.2.value?.getD "") e.2

/-- The stored mapping after the getter popped every `value` key. -/
def clearedValues (stored : List (String × CookieDict)) : List (String × CookieDict) :=
  stored.map (fun e => (e.1, { e.2 with value? := none }))

/-- The jar the getter rebuilds from a stored mapping (before expiry purge). -/
def jarOfStored (stored : List (String × CookieDict)) : Jar :=
  stored.foldl (fun acc e => acc.setCookie (cookieOfEntry e)) []

/-- The credential the executed request carries: explicit request credentials
win, else the session's stored auth is injected (if its type is not null). -/
def effectiveAuthOf (reqAuth : Option AuthCred) (stored : AuthRecord) : Option AuthCred :=
  match reqAuth with
  | some a => some a
  | none => authDecode stored

/-- The session's stored auth record after the request was applied. -/
def storedAuthAfter (reqAuth : Option AuthCred) (stored : AuthRecord) : AuthRecord :=
  match reqAuth with
  | some a => authEncode a
  | none => stored

/-- The request `get_response` hands to the external HTTP client. -/
def executedRequestOf (req : Request) (loaded : SessionData) : Request :=
  { req with headers := dictUpdate loaded.headers req.headers,
             auth := effectiveAuthOf req.auth loaded.auth }

/-- The session data written to disk when `get_response` saves. -/
def savedDataOf (req : Request) (loaded : SessionData) (rjar : Jar) : SessionData :=
  { headers := dictUpdate loaded.headers req.headers,
    cookies := cookiesEncode rjar,
    auth := storedAuthAfter req.auth loaded.auth }

/-! Concrete objects used to instantiate the theorems. -/

/-- A client that always succeeds with a fixed response and an empty jar. -/
def witnessClient : HttpClient := fun _ _ => .ok ({ id := 0 }, [])

def witnessReq : Request :=
  { url_netloc := "example.com", headers := [("B", "3"), ("C", "4")], auth := none }

def emptyFS : FS := { dirs := [], files := [] }

/-- Two unexpired cookies sharing the name `a` on different domains. -/
def clashCookie1 : Cookie :=
  { name := "a", value := "1", domain := "d1", path := "/", expired := false }

def clashCookie2 : Cookie :=
  { name := "a", value := "2", domain := "d2", path := "/", expired := false }

def clashJar : Jar := Jar.setCookie (Jar.setCookie [] clashCookie1) clashCookie2

/-- A jar with two distinct-name cookies, one of them expired. -/
def wCookieFresh : Cookie :=
  { name := "x", value := "7", domain := "d", path := "/", expired := false }

def wCookieStale : Cookie :=
  { name := "y", value := "8", domain := "d", path := "/", expired := true }

def witJar : Jar := Jar.setCookie (Jar.setCookie [] wCookieFresh) wCookieStale

/-- A filesystem holding one session `default` for host `example.com` under the
default sessions root. -/
def delFS : FS :=
  { dirs := [DEFAULT_SESSIONS_DIR, DEFAULT_SESSIONS_DIR ++ "/example.com"],
    files := [(DEFAULT_SESSIONS_DIR ++ "/example.com/default.json", SessionData.fresh)] }

/-! Basic lemmas about the filesystem model and the cookie codec. -/

@[simp] theorem FS.files_mkdirp (fs : FS) (q : String) : (fs.mkdirp q).files = fs.files := by
  unfold FS.mkdirp
  split <;> rfl

@[simp] theorem FS.read_mkdirp (fs : FS) (p q : String) : (fs.mkdirp q).read p = fs.read p := by
  unfold FS.read
  rw [FS.files_mkdirp]

theorem FS.mkdirp_mkdirp (fs : FS) (p : String) : (fs.mkdirp p).mkdirp p = fs.mkdirp p := by
  by_cases h : p ∈ fs.dirs <;> simp [FS.mkdirp, h]

/-- The getter's loop succeeds on a mapping whose entries all still carry their
`value` key, building the jar left to right and popping each `value`. -/
theorem cookiesDecodeAux_ok (stored : List (String × CookieDict))
    (h : ∀ e ∈ stored, e.2.value?.isSome = true) (j : Jar) :
    cookiesDecodeAux stored j =
      .ok (stored.foldl (fun acc e => acc.setCookie (cookieOfEntry e)) j, clearedValues stored) := by
  induction stored generalizing j with
  | nil => simp [cookiesDecodeAux, clearedValues]
  | cons e rest ih =>
    obtain ⟨n, cd⟩ := e
    have hv : cd.value?.isSome = true := h (n, cd) (by simp)
    obtain ⟨v, hv'⟩ := Option.isSome_iff_exists.mp hv
    have hrest : ∀ e ∈ rest, e.2.value?.isSome = true := fun e he => h e (by simp [he])
    simp [cookiesDecodeAux, hv', ih hrest, clearedValues, cookieOfEntry, cookieOf]

/-- The `cookies` getter on a well-formed stored mapping: the rebuilt jar with
expired cookies purged, alongside the mutated mapping. -/
theorem cookiesDecode_ok (stored : List (String × CookieDict))
    (h : ∀ e ∈ stored, e.2.value?.isSome = true) :
    cookiesDecode stored = .ok ((jarOfStored stored).clearExpired, clearedValues stored) := by
  simp [cookiesDecode, cookiesDecodeAux_ok stored h, jarOfStored]

/-- Evaluation of `get_response` under valid names and a well-formed stored
cookie mapping, for an arbitrary external client outcome. -/
theorem get_response_eval (client : HttpClient) (name : String) (req : Request)
    (config_dir : String) (read_only : Bool) (fs : FS)
    (hhn : isValidHostName (requestHostName req) = true)
    (hsn : isValidSessionName name = true)
    (hwf : ∀ e ∈ (loadedDataOf fs config_dir (requestHostName req) name).cookies,
        e.2.value?.isSome = true) :
    get_response client name req config_dir read_only fs =
      (let hn := requestHostName req
       let dir := hostDirOf config_dir hn
       let p := sessionPathOf config_dir hn name
       let loaded := loadedDataOf fs config_dir hn name
       let execReq := executedRequestOf req loaded
       match client execReq ((jarOfStored loaded.cookies).clearExpired) with
       | .error e => (.error e, fs.mkdirp dir, [execReq])
       | .ok (resp, rjar) =>
         if (fs.read p).isNone || !read_only then
           (.ok resp, (fs.mkdirp dir).write p (savedDataOf req loaded rjar), [execReq])
         else (.ok resp, fs.mkdirp dir, [execReq])) := by
  have hpath : (Host.mk (requestHostName req) (config_dir ++ "/" ++ SESSIONS_DIR_NAME)).pathStr
      = hostDirOf config_dir (requestHostName req) := rfl
  have hpath2 : hostDirOf config_dir (requestHostName req) ++ "/" ++ name ++ ".json"
      = sessionPathOf config_dir (requestHostName req) name := rfl
  simp only [get_response, Host.construct, hhn, if_true, Session.construct, hsn,
    Session.load, Session.path, Host.path, Session.checkNew, Session.save,
    FS.read_mkdirp, FS.mkdirp_mkdirp, hpath, hpath2]
  cases hread : fs.read (sessionPathOf config_dir (requestHostName req) name) with
  | none =>
    have hload : loadedDataOf fs config_dir (requestHostName req) name = SessionData.fresh := by
      simp [loadedDataOf, hread]
    rw [hload] at hwf
    simp only [hread, hload]
    cases hauth : req.auth with
    | none =>
      cases had : authDecode (SessionData.fresh).auth with
      | none =>
        simp [cookiesDecode_ok _ hwf, executedRequestOf, effectiveAuthOf, savedDataOf,
          storedAuthAfter, hauth, had, hread, loadedDataOf, hpath, hpath2, FS.mkdirp_mkdirp]
      | some cred =>
        simp [cookiesDecode_ok _ hwf, executedRequestOf, effectiveAuthOf, savedDataOf,
          storedAuthAfter, hauth, had, hread, loadedDataOf, hpath, hpath2, FS.mkdirp_mkdirp]
    | some cred =>
      simp [cookiesDecode_ok _ hwf, executedRequestOf, effectiveAuthOf, savedDataOf,
        storedAuthAfter, hauth, hread, loadedDataOf, hpath, hpath2, FS.mkdirp_mkdirp]
  | some d =>
    have hload : loadedDataOf fs config_dir (requestHostName req) name = d := by
      simp [loadedDataOf, hread]
    rw [hload] at hwf
    simp only [hread, hload]
    cases hauth : req.auth with
    | none =>
      cases had : authDecode d.auth with
      | none =>
        simp [cookiesDecode_ok _ hwf, executedRequestOf, effectiveAuthOf, savedDataOf,
          storedAuthAfter, hauth, had, hread, loadedDataOf, hpath, hpath2, FS.mkdirp_mkdirp]
      | some cred =>
        simp [cookiesDecode_ok _ hwf, executedRequestOf, effectiveAuthOf, savedDataOf,
          storedAuthAfter, hauth, had, hread, loadedDataOf, hpath, hpath2, FS.mkdirp_mkdirp]
    | some cred =>
      simp [cookiesDecode_ok _ hwf, executedRequestOf, effectiveAuthOf, savedDataOf,
        storedAuthAfter, hauth, hread, loadedDataOf, hpath, hpath2, FS.mkdirp_mkdirp]

/-- Whatever the external client answers, exactly one request is issued, namely
the merged one. -/
theorem get_response_trace (client : HttpClient) (name : String) (req : Request)
    (config_dir : String) (read_only : Bool) (fs : FS)
    (hhn : isValidHostName (requestHostName req) = true)
    (hsn : isValidSessionName name = true)
    (hwf : ∀ e ∈ (loadedDataOf fs config_dir (requestHostName req) name).cookies,
        e.2.value?.isSome = true) :
    (get_response client name req config_dir read_only fs).2.2
      = [executedRequestOf req (loadedDataOf fs config_dir (requestHostName req) name)] := by
  rw [get_response_eval client name req config_dir read_only fs hhn hsn hwf]
  dsimp only
  cases client (executedRequestOf req (loadedDataOf fs config_dir (requestHostName req) name))
      ((jarOfStored (loadedDataOf fs config_dir (requestHostName req) name).cookies).clearExpired) with
  | error e => rfl
  | ok pr =>
    obtain ⟨resp, rjar⟩ := pr
    by_cases h : ((fs.read (sessionPathOf config_dir (requestHostName req) name)).isNone
        || !read_only) = true <;> simp [h]

/-! Dictionary lookup lemmas. -/

@[simp] theorem lookup_nil {β : Type} (n : String) :
    ([] : List (String × β)).lookup n = none := rfl

theorem lookup_cons {β : Type} (k n : String) (v : β) (rest : List (String × β)) :
    ((k, v) :: rest).lookup n = if n = k then some v else rest.lookup n := by
  by_cases h : n = k
  · simp [List.lookup, h]
  · have hb : (n == k) = false := beq_eq_false_iff_ne.mpr h
    simp [List.lookup, hb, h]

theorem lookup_setIn {β : Type} (m : List (String × β)) (k n : String) (v : β) :
    (setIn m k v).lookup n = if n = k then some v else m.lookup n := by
  induction m with
  | nil => by_cases h : n = k <;> simp [setIn, lookup_cons, h]
  | cons e rest ih =>
    obtain ⟨k₀, v₀⟩ := e
    by_cases h : k₀ = k
    · subst h
      rw [show setIn ((k₀, v₀) :: rest) k₀ v = (k₀, v) :: rest from by simp [setIn]]
      by_cases hn : n = k₀ <;> simp [lookup_cons, hn]
    · rw [show setIn ((k₀, v₀) :: rest) k v = (k₀, v₀) :: setIn rest k v from by simp [setIn, h],
        lookup_cons, lookup_cons, ih]
      by_cases hn : n = k₀ <;> by_cases hk : n = k
      · exact absurd (hn.symm.trans hk) h
      · simp [hn, hk, h]
      · simp only [if_pos hk, if_neg hn]
      · simp [hn, hk]

theorem lookup_append {β : Type} (l₁ l₂ : List (String × β)) (n : String) :
    (l₁ ++ l₂).lookup n = ((l₁.lookup n).or (l₂.lookup n)) := by
  induction l₁ with
  | nil => simp
  | cons e rest ih =>
    obtain ⟨k, v⟩ := e
    by_cases h : n = k <;> simp [List.cons_append, lookup_cons, h, ih]

theorem lookup_eq_none_iff {β : Type} (l : List (String × β)) (n : String) :
    l.lookup n = none ↔ n ∉ l.map Prod.fst := by
  induction l with
  | nil => simp
  | cons e rest ih =>
    obtain ⟨k, v⟩ := e
    by_cases h : n = k <;> simp [lookup_cons, h, ih]

theorem lookup_reverse_of_nodup {β : Type} (l : List (String × β))
    (h : (l.map Prod.fst).Nodup) (n : String) :
    l.reverse.lookup n = l.lookup n := by
  induction l with
  | nil => rfl
  | cons e rest ih =>
    obtain ⟨k, v⟩ := e
    rw [List.map_cons, List.nodup_cons] at h
    rw [List.reverse_cons, lookup_append, ih h.2, lookup_cons]
    by_cases hn : n = k
    · subst hn
      have hnone : rest.lookup n = none := (lookup_eq_none_iff rest n).mpr h.1
      simp [hnone, lookup_cons, Option.or]
    · cases hr : rest.lookup n <;> simp [lookup_cons, hn, hr, Option.or]

theorem lookup_dictUpdate {β : Type} (d e : List (String × β)) (n : String) :
    (dictUpdate d e).lookup n = ((e.reverse.lookup n).or (d.lookup n)) := by
  induction e generalizing d with
  | nil => simp [dictUpdate]
  | cons kv rest ih =>
    obtain ⟨k, v⟩ := kv
    have hstep : dictUpdate d ((k, v) :: rest) = dictUpdate (setIn d k v) rest := rfl
    rw [hstep, ih, List.reverse_cons, lookup_append, lookup_setIn]
    cases hr : rest.reverse.lookup n <;> by_cases h : n = k <;>
      simp [h, hr, lookup_cons, Option.or]

/-- C2: header merge precedence — the one request `get_response` executes
carries the stored session headers updated with the request's own headers;
every key of the request headers appears with the request's value, every
session key the request does not override keeps the session's value; and the
spec's concrete example merges to `{A:1, B:3, C:4}`. -/
theorem claim_C2_header_merge (client : HttpClient) (name : String) (req : Request)
    (config_dir : String) (read_only : Bool) (fs : FS)
    (hhn : isValidHostName (requestHostName req) = true)
    (hsn : isValidSessionName name = true)
    (hwf : ∀ e ∈ (loadedDataOf fs config_dir (requestHostName req) name).cookies,
        e.2.value?.isSome = true)
    (hnodup : (req.headers.map Prod.fst).Nodup) :
    ((get_response client name req config_dir read_only fs).2.2.map Request.headers
        = [dictUpdate (loadedDataOf fs config_dir (requestHostName req) name).headers
            req.headers])
    ∧ (∀ S : StrDict, ∀ k v, req.headers.lookup k = some v →
        (dictUpdate S req.headers).lookup k = some v)
    ∧ (∀ S : StrDict, ∀ k, req.headers.lookup k = none →
        (dictUpdate S req.headers).lookup k = S.lookup k)
    ∧ dictUpdate [("A", "1"), ("B", "2")] [("B", "3"), ("C", "4")]
        = [("A", "1"), ("B", "3"), ("C", "4")] := by
  refine ⟨?_, ?_, ?_, by decide⟩
  · rw [get_response_trace client name req config_dir read_only fs hhn hsn hwf]
    rfl
  · intro S k v hk
    rw [lookup_dictUpdate, lookup_reverse_of_nodup req.headers hnodup, hk]
    rfl
  · intro S k hk
    have hrev : req.headers.reverse.lookup k = none := by
      rw [lookup_eq_none_iff] at hk ⊢
      simpa using hk
    rw [lookup_dictUpdate, hrev]
    rfl

/-- Witness for C2: the hypotheses hold and the conclusion evaluates at a
concrete client, request and empty filesystem. -/
theorem claim_C2_header_merge_witness :
    ((get_response witnessClient "s" witnessReq "/c" false emptyFS).2.2.map Request.headers
        = [dictUpdate (loadedDataOf emptyFS "/c" (requestHostName witnessReq) "s").headers
            witnessReq.headers])
    ∧ (∀ S : StrDict, ∀ k v, witnessReq.headers.lookup k = some v →
        (dictUpdate S witnessReq.headers).lookup k = some v)
    ∧ (∀ S : StrDict, ∀ k, witnessReq.headers.lookup k = none →
        (dictUpdate S witnessReq.headers).lookup k = S.lookup k)
    ∧ dictUpdate [("A", "1"), ("B", "2")] [("B", "3"), ("C", "4")]
        = [("A", "1"), ("B", "3"), ("C", "4")] :=
  claim_C2_header_merge witnessClient "s" witnessReq "/c" false emptyFS
    (by decide) (by decide) (by decide) (by decide)

/-- C9: validation precedes filesystem access — constructing a `Host` or a
`Session` with a name failing its pattern stops at the assert with the
filesystem untouched, and construction never touches the filesystem for any
name; names containing `/` or a space are invalid for both patterns. -/
theorem claim_C9_validation_before_fs :
    (∀ n root fs, isValidHostName n = false →
        Host.construct n root fs = (.error .assertionError, fs))
    ∧ (∀ h : Host, ∀ n fs, isValidSessionName n = false →
        Session.construct h (some n) fs = (.error .assertionError, fs))
    ∧ (∀ n root fs, (Host.construct n root fs).2 = fs)
    ∧ (∀ h : Host, ∀ n fs, (Session.construct h n fs).2 = fs)
    ∧ isValidHostName "a/b" = false ∧ isValidHostName "a b" = false
    ∧ isValidSessionName "a/b" = false ∧ isValidSessionName "a b" = false := by
  refine ⟨?_, ?_, ?_, ?_, by decide, by decide, by decide, by decide⟩
  · intro n root fs h
    simp [Host.construct, h]
  · intro hh n fs h
    simp [Session.construct, h]
  · intro n root fs
    by_cases h : isValidHostName n <;> simp [Host.construct, h]
  · intro hh n fs
    cases n with
    | none => rfl
    | some n => by_cases h : isValidSessionName n <;> simp [Session.construct, h]

/-- Witness for C9: concrete invalid names are rejected with the filesystem
returned unchanged. -/
theorem claim_C9_validation_before_fs_witness :
    Host.construct "a/b" "/r" emptyFS = (.error .assertionError, emptyFS)
    ∧ Session.construct { name := "h", root_dir := "/r" } (some "a b") emptyFS
        = (.error .assertionError, emptyFS) :=
  ⟨claim_C9_validation_before_fs.1 "a/b" "/r" emptyFS (by decide),
   claim_C9_validation_before_fs.2.1 { name := "h", root_dir := "/r" } "a b" emptyFS (by decide)⟩

/-- C10: the `cookies` getter mutates the stored state — on a non-empty
well-formed stored mapping the first read succeeds but pops every `value` key,
leaving the mapping changed, and an immediately following second read fails
with the missing-key error. -/
theorem claim_C10_getter_mutates (stored : List (String × CookieDict))
    (hne : stored ≠ [])
    (hwf : ∀ e ∈ stored, e.2.value?.isSome = true) :
    cookiesDecode stored = .ok ((jarOfStored stored).clearExpired, clearedValues stored)
    ∧ clearedValues stored ≠ stored
    ∧ cookiesDecode (clearedValues stored) = .error (.keyError "value") := by
  refine ⟨cookiesDecode_ok stored hwf, ?_, ?_⟩
  · cases stored with
    | nil => exact absurd rfl hne
    | cons e rest =>
      obtain ⟨n, cd⟩ := e
      have hv : cd.value?.isSome = true := hwf (n, cd) (by simp)
      intro hEq
      have hhead : ((n, { cd with value? := none }) : String × CookieDict) = (n, cd) := by
        have := congrArg (fun l => l.head?) hEq
        simpa [clearedValues] using this
      have : (none : Option String) = cd.value? := congrArg (fun e => e.2.value?) hhead
      rw [← this] at hv
      simp at hv
  · cases stored with
    | nil => exact absurd rfl hne
    | cons e rest =>
      obtain ⟨n, cd⟩ := e
      simp [clearedValues, cookiesDecode, cookiesDecodeAux]

/-- Witness for C10 on a one-entry stored mapping. -/
theorem claim_C10_getter_mutates_witness :
    (cookiesDecode [("a", { value? := some "1", domain := "d", path := "/", expired := false })]
      = .ok ((jarOfStored [("a", { value? := some "1", domain := "d", path := "/", expired := false })]).clearExpired,
          clearedValues [("a", { value? := some "1", domain := "d", path := "/", expired := false })]))
    ∧ clearedValues [("a", { value? := some "1", domain := "d", path := "/", expired := false })]
        ≠ [("a", { value? := some "1", domain := "d", path := "/", expired := false })]
    ∧ cookiesDecode (clearedValues [("a", { value? := some "1", domain := "d", path := "/", expired := false })])
        = .error (.keyError "value") :=
  claim_C10_getter_mutates _ (by decide) (by decide)

/-- C7: transport-error atomicity — when the external client raises, the same
exception is returned unchanged, exactly one request was issued (no retry),
and the filesystem's files are exactly what they were before the call. -/
theorem claim_C7_transport_error (client : HttpClient) (name : String) (req : Request)
    (config_dir : String) (read_only : Bool) (fs : FS) (e : PyError)
    (hhn : isValidHostName (requestHostName req) = true)
    (hsn : isValidSessionName name = true)
    (hwf : ∀ e ∈ (loadedDataOf fs config_dir (requestHostName req) name).cookies,
        e.2.value?.isSome = true)
    (hc : ∀ r j, client r j = .error e) :
    (get_response client name req config_dir read_only fs).1 = .error e
    ∧ ((get_response client name req config_dir read_only fs).2.1).files = fs.files
    ∧ (get_response client name req config_dir read_only fs).2.2
        = [executedRequestOf req (loadedDataOf fs config_dir (requestHostName req) name)] := by
  rw [get_response_eval client name req config_dir read_only fs hhn hsn hwf]
  dsimp only
  rw [hc]
  simp

/-- Witness for C7: a client that always raises a fixed transport error. -/
theorem claim_C7_transport_error_witness :
    (get_response (fun _ _ => .error (.transport "boom")) "s" witnessReq "/c" false emptyFS).1
        = .error (.transport "boom")
    ∧ ((get_response (fun _ _ => .error (.transport "boom")) "s" witnessReq "/c" false emptyFS).2.1).files
        = emptyFS.files
    ∧ (get_response (fun _ _ => .error (.transport "boom")) "s" witnessReq "/c" false emptyFS).2.2
        = [executedRequestOf witnessReq (loadedDataOf emptyFS "/c" (requestHostName witnessReq) "s")] :=
  claim_C7_transport_error (fun _ _ => .error (.transport "boom")) "s" witnessReq "/c" false emptyFS
    (.transport "boom") (by decide) (by decide) (by decide) (fun _ _ => rfl)

theorem FS.read_write_self (fs : FS) (p : String) (d : SessionData) :
    (fs.write p d).read p = some d := by
  simp [FS.write, FS.read, lookup_setIn]

/-- C1: conditional persistence after a successful request — the call succeeds,
and the session file is rewritten (with its cookies overwritten by the encoding
of the response jar) exactly when the session is new or read-only was not
requested; when the session pre-existed and read-only was requested, the files
on disk are exactly what they were before the call. -/
theorem claim_C1_conditional_persistence (client : HttpClient) (name : String)
    (req : Request) (config_dir : String) (read_only : Bool) (fs : FS)
    (resp : Response) (rjar : Jar)
    (hhn : isValidHostName (requestHostName req) = true)
    (hsn : isValidSessionName name = true)
    (hwf : ∀ e ∈ (loadedDataOf fs config_dir (requestHostName req) name).cookies,
        e.2.value?.isSome = true)
    (hc : ∀ r j, client r j = .ok (resp, rjar)) :
    (get_response client name req config_dir read_only fs).1 = .ok resp
    ∧ (((fs.read (sessionPathOf config_dir (requestHostName req) name)).isNone
          || !read_only) = true →
        (get_response client name req config_dir read_only fs).2.1.read
            (sessionPathOf config_dir (requestHostName req) name)
          = some (savedDataOf req (loadedDataOf fs config_dir (requestHostName req) name) rjar))
    ∧ (savedDataOf req (loadedDataOf fs config_dir (requestHostName req) name) rjar).cookies
        = cookiesEncode rjar
    ∧ (((fs.read (sessionPathOf config_dir (requestHostName req) name)).isNone
          || !read_only) = false →
        (get_response client name req config_dir read_only fs).2.1.files = fs.files) := by
  rw [get_response_eval client name req config_dir read_only fs hhn hsn hwf]
  dsimp only
  rw [hc]
  refine ⟨?_, ?_, rfl, ?_⟩
  · by_cases h : ((fs.read (sessionPathOf config_dir (requestHostName req) name)).isNone
        || !read_only) = true <;> simp [h]
  · intro h
    simp [h, FS.read_write_self]
  · intro h
    simp [h]

/-- Witness for C1: a new session under an empty filesystem is written even
though read-only was requested. -/
theorem claim_C1_conditional_persistence_witness :
    (get_response witnessClient "s" witnessReq "/c" true emptyFS).1 = .ok { id := 0 }
    ∧ (((emptyFS.read (sessionPathOf "/c" (requestHostName witnessReq) "s")).isNone
          || !true) = true →
        (get_response witnessClient "s" witnessReq "/c" true emptyFS).2.1.read
            (sessionPathOf "/c" (requestHostName witnessReq) "s")
          = some (savedDataOf witnessReq
              (loadedDataOf emptyFS "/c" (requestHostName witnessReq) "s") []))
    ∧ (savedDataOf witnessReq (loadedDataOf emptyFS "/c" (requestHostName witnessReq) "s")
        []).cookies = cookiesEncode []
    ∧ (((emptyFS.read (sessionPathOf "/c" (requestHostName witnessReq) "s")).isNone
          || !true) = false →
        (get_response witnessClient "s" witnessReq "/c" true emptyFS).2.1.files
          = emptyFS.files) :=
  claim_C1_conditional_persistence witnessClient "s" witnessReq "/c" true emptyFS
    { id := 0 } [] (by decide) (by decide) (by decide) (fun _ _ => rfl)

/-- C3: auth precedence — explicit request credentials are the ones the
executed request carries and, whenever the run saves, they become the
persisted auth; with no request credentials a stored basic/digest credential
is injected into the executed request; with no request credentials and a null
stored type nothing is injected. -/
theorem claim_C3_auth_precedence (client : HttpClient) (name : String)
    (req : Request) (config_dir : String) (read_only : Bool) (fs : FS)
    (resp : Response) (rjar : Jar)
    (hhn : isValidHostName (requestHostName req) = true)
    (hsn : isValidSessionName name = true)
    (hwf : ∀ e ∈ (loadedDataOf fs config_dir (requestHostName req) name).cookies,
        e.2.value?.isSome = true)
    (hc : ∀ r j, client r j = .ok (resp, rjar)) :
    (∀ a, req.auth = some a →
        (get_response client name req config_dir read_only fs).2.2.map Request.auth
          = [some a]
        ∧ (((fs.read (sessionPathOf config_dir (requestHostName req) name)).isNone
              || !read_only) = true →
            ((get_response client name req config_dir read_only fs).2.1.read
                (sessionPathOf config_dir (requestHostName req) name)).map SessionData.auth
              = some (authEncode a)))
    ∧ (∀ t, req.auth = none →
        (loadedDataOf fs config_dir (requestHostName req) name).auth.type = some t →
        (get_response client name req config_dir read_only fs).2.2.map Request.auth
          = [some { type := t,
                    username := (loadedDataOf fs config_dir (requestHostName req) name).auth.username,
                    password := (loadedDataOf fs config_dir (requestHostName req) name).auth.password }])
    ∧ (req.auth = none →
        (loadedDataOf fs config_dir (requestHostName req) name).auth.type = none →
        (get_response client name req config_dir read_only fs).2.2.map Request.auth
          = [none]) := by
  have htrace := get_response_trace client name req config_dir read_only fs hhn hsn hwf
  refine ⟨?_, ?_, ?_⟩
  · intro a ha
    constructor
    · rw [htrace]
      simp [executedRequestOf, effectiveAuthOf, ha]
    · intro h
      rw [get_response_eval client name req config_dir read_only fs hhn hsn hwf]
      dsimp only
      rw [hc]
      simp [h, FS.read_write_self, savedDataOf, storedAuthAfter, ha]
  · intro t ha ht
    rw [htrace]
    simp [executedRequestOf, effectiveAuthOf, ha, authDecode, ht]
  · intro ha ht
    rw [htrace]
    simp [executedRequestOf, effectiveAuthOf, ha, authDecode, ht]

/-- Witness for C3: an explicit basic credential is carried by the executed
request and persisted for a new session. -/
theorem claim_C3_auth_precedence_witness :
    (∀ a, (Request.mk "example.com" [] (some (AuthCred.mk .basic (some "u") (some "p")))).auth
          = some a →
        (get_response witnessClient "s"
            (Request.mk "example.com" [] (some (AuthCred.mk .basic (some "u") (some "p"))))
            "/c" false emptyFS).2.2.map Request.auth = [some a]
        ∧ (((emptyFS.read (sessionPathOf "/c"
              (requestHostName (Request.mk "example.com" []
                (some (AuthCred.mk .basic (some "u") (some "p"))))) "s")).isNone
              || !false) = true →
            ((get_response witnessClient "s"
                (Request.mk "example.com" [] (some (AuthCred.mk .basic (some "u") (some "p"))))
                "/c" false emptyFS).2.1.read
              (sessionPathOf "/c"
                (requestHostName (Request.mk "example.com" []
                  (some (AuthCred.mk .basic (some "u") (some "p"))))) "s")).map SessionData.auth
              = some (authEncode a)))
    ∧ (∀ t, (Request.mk "example.com" [] (some (AuthCred.mk .basic (some "u") (some "p")))).auth
          = none →
        (loadedDataOf emptyFS "/c"
          (requestHostName (Request.mk "example.com" []
            (some (AuthCred.mk .basic (some "u") (some "p"))))) "s").auth.type = some t →
        (get_response witnessClient "s"
            (Request.mk "example.com" [] (some (AuthCred.mk .basic (some "u") (some "p"))))
            "/c" false emptyFS).2.2.map Request.auth
          = [some { type := t,
                    username := (loadedDataOf emptyFS "/c"
                      (requestHostName (Request.mk "example.com" []
                        (some (AuthCred.mk .basic (some "u") (some "p"))))) "s").auth.username,
                    password := (loadedDataOf emptyFS "/c"
                      (requestHostName (Request.mk "example.com" []
                        (some (AuthCred.mk .basic (some "u") (some "p"))))) "s").auth.password }])
    ∧ ((Request.mk "example.com" [] (some (AuthCred.mk .basic (some "u") (some "p")))).auth
          = none →
        (loadedDataOf emptyFS "/c"
          (requestHostName (Request.mk "example.com" []
            (some (AuthCred.mk .basic (some "u") (some "p"))))) "s").auth.type = none →
        (get_response witnessClient "s"
            (Request.mk "example.com" [] (some (AuthCred.mk .basic (some "u") (some "p"))))
            "/c" false emptyFS).2.2.map Request.auth = [none]) :=
  claim_C3_auth_precedence witnessClient "s"
    (Request.mk "example.com" [] (some (AuthCred.mk .basic (some "u") (some "p"))))
    "/c" false emptyFS { id := 0 } []
    (by decide) (by decide) (by decide) (fun _ _ => rfl)

/-- C6: evaluation of `command_session_delete` as written — with a session name
given the command does nothing at all (the session file survives untouched),
and with no session name it removes the host directory but then raises a
`TypeError` while constructing `Session(host, None)`. -/
theorem claim_C6_delete_eval :
    command_session_delete "example.com" (some "default") delFS = (.ok (), delFS)
    ∧ delFS.read (DEFAULT_SESSIONS_DIR ++ "/example.com/default.json")
        = some SessionData.fresh
    ∧ command_session_delete "example.com" none delFS
        = (.error .typeError,
           { dirs := [DEFAULT_CONFIG_DIR ++ "/" ++ SESSIONS_DIR_NAME], files := [] }) := by
  decide

theorem find?_append {α : Type} (l₁ l₂ : List α) (p : α → Bool) :
    (l₁ ++ l₂).find? p = ((l₁.find? p).or (l₂.find? p)) := by
  induction l₁ with
  | nil => simp
  | cons a rest ih =>
    by_cases h : p a <;> simp [List.find?, h, ih, Option.or]

/-- Folding the encode loop over a cookie list: each name is mapped to the
attributes of the last cookie carrying it. -/
theorem lookup_cookiesEncode_fold (cs : List Cookie) (init : List (String × CookieDict))
    (n : String) :
    (cs.foldl (fun m c => setIn m c.name (dictOfCookie c)) init).lookup n =
      match cs.reverse.find? (fun c => c.name == n) with
      | some c => some (dictOfCookie c)
      | none => init.lookup n := by
  induction cs generalizing init with
  | nil => simp
  | cons c rest ih =>
    rw [List.foldl_cons, ih, List.reverse_cons, find?_append]
    cases hf : rest.reverse.find? (fun c => c.name == n) with
    | some x => simp [Option.or]
    | none =>
      by_cases h : c.name = n
      · have hb : (c.name == n) = true := beq_iff_eq.mpr h
        simp [Option.or, List.find?, hb, lookup_setIn, h]
      · have hb : (c.name == n) = false := beq_eq_false_iff_ne.mpr h
        have h2 : ¬ n = c.name := fun he => h he.symm
        simp [Option.or, List.find?, hb, lookup_setIn, h2]

theorem lookup_cookiesEncode (jar : Jar) (n : String) :
    (cookiesEncode jar).lookup n =
      match jar.toList.reverse.find? (fun c => c.name == n) with
      | some c => some (dictOfCookie c)
      | none => none := by
  rw [cookiesEncode, lookup_cookiesEncode_fold]
  cases jar.toList.reverse.find? (fun c => c.name == n) <;> simp

theorem keys_setIn {β : Type} (m : List (String × β)) (k : String) (v : β) :
    (setIn m k v).map Prod.fst =
      if k ∈ m.map Prod.fst then m.map Prod.fst else m.map Prod.fst ++ [k] := by
  induction m with
  | nil => simp [setIn]
  | cons e rest ih =>
    obtain ⟨k₀, v₀⟩ := e
    by_cases h : k₀ = k
    · subst h
      simp [setIn]
    · have h2 : ¬ k = k₀ := fun he => h he.symm
      by_cases hk : k ∈ rest.map Prod.fst <;> simp [setIn, h, h2, ih, hk]

theorem nodup_keys_setIn {β : Type} (m : List (String × β)) (k : String) (v : β)
    (h : (m.map Prod.fst).Nodup) : ((setIn m k v).map Prod.fst).Nodup := by
  rw [keys_setIn]
  by_cases hk : k ∈ m.map Prod.fst
  · simpa [hk] using h
  · simp [hk, List.nodup_append, h]

theorem nodup_keys_encode_fold (cs : List Cookie) (init : List (String × CookieDict))
    (h : (init.map Prod.fst).Nodup) :
    ((cs.foldl (fun m c => setIn m c.name (dictOfCookie c)) init).map Prod.fst).Nodup := by
  induction cs generalizing init with
  | nil => simpa
  | cons c rest ih => exact ih _ (nodup_keys_setIn _ _ _ h)

/-- C8: cookie-name collision on encode — the serialized mapping has exactly
one entry per distinct name, the entry for a name holds the attributes of the
last cookie with that name in jar iteration order (no deduplication by
domain and path), and on the concrete two-domain clash only the later cookie
survives. -/
theorem claim_C8_name_collision (jar : Jar) :
    ((cookiesEncode jar).map Prod.fst).Nodup
    ∧ (∀ n, (cookiesEncode jar).lookup n =
        match jar.toList.reverse.find? (fun c => c.name == n) with
        | some c => some (dictOfCookie c)
        | none => none)
    ∧ cookiesEncode clashJar = [("a", dictOfCookie clashCookie2)] :=
  ⟨nodup_keys_encode_fold _ _ (by simp), fun n => lookup_cookiesEncode jar n, by decide⟩

/-! String lemmas for the host name / directory round trip. -/

theorem string_mk_data (s : String) : String.mk s.data = s := rfl

theorem strData_append (a b : String) : (a ++ b).data = a.data ++ b.data := rfl

theorem map_colon_id (l : List Char) (h : ':' ∉ l) :
    l.map (fun c => if c = ':' then '_' else c) = l := by
  induction l with
  | nil => rfl
  | cons c rest ih =>
    simp only [List.mem_cons, not_or] at h
    have hc : ¬ c = ':' := fun he => h.1 he.symm
    simp [hc, ih h.2]

theorem takeWhile_append_stop {α : Type} (p : α → Bool) (l₁ : List α) (y : α) (l₂ : List α)
    (h₁ : ∀ x ∈ l₁, p x = true) (h₂ : p y = false) :
    (l₁ ++ y :: l₂).takeWhile p = l₁ := by
  induction l₁ with
  | nil => simp [List.takeWhile_cons, h₂]
  | cons a rest ih =>
    simp [List.takeWhile_cons, h₁ a (by simp), ih (fun x hx => h₁ x (by simp [hx]))]

theorem dropWhile_append_stop {α : Type} (p : α → Bool) (l₁ : List α) (y : α) (l₂ : List α)
    (h₁ : ∀ x ∈ l₁, p x = true) (h₂ : p y = false) :
    (l₁ ++ y :: l₂).dropWhile p = y :: l₂ := by
  induction l₁ with
  | nil => simp [List.dropWhile_cons, h₂]
  | cons a rest ih =>
    simp [List.dropWhile_cons, h₁ a (by simp), ih (fun x hx => h₁ x (by simp [hx]))]

/-- The `re.sub` core on a name of the shape `prefix_digits`: the underscore
before the trailing digit run becomes a colon. -/
theorem realNameCore_underscore (a d : List Char)
    (hd : ∀ c ∈ d, c.isDigit = true) (hne : d ≠ []) :
    realNameCore (a ++ '_' :: d) = a ++ ':' :: d := by
  have hrev : (a ++ '_' :: d).reverse = d.reverse ++ '_' :: a.reverse := by
    simp
  have hdig : ∀ c ∈ d.reverse, c.isDigit = true := fun c hc => hd c (by simpa using hc)
  have hu : ('_' : Char).isDigit = false := by decide
  have htake : ((a ++ '_' :: d).reverse).takeWhile Char.isDigit = d.reverse := by
    rw [hrev, takeWhile_append_stop _ _ _ _ hdig hu]
  have hdrop : ((a ++ '_' :: d).reverse).dropWhile Char.isDigit = '_' :: a.reverse := by
    rw [hrev, dropWhile_append_stop _ _ _ _ hdig hu]
  have hempty : (d.reverse).isEmpty = false := by
    cases d with
    | nil => exact absurd rfl hne
    | cons c rest => simp
  unfold realNameCore
  dsimp only
  rw [htake, hdrop]
  simp [hempty]

/-- When the name does not end in `_digits`, the `re.sub` core changes nothing. -/
theorem realNameCore_id (cs : List Char)
    (h : endsUnderscoreDigitsChars cs = false) : realNameCore cs = cs := by
  unfold endsUnderscoreDigitsChars at h
  unfold realNameCore
  dsimp only
  split
  · next rest heq =>
    rw [heq] at h
    have h2 : (List.takeWhile Char.isDigit cs.reverse).isEmpty = true := by
      simpa using h
    rw [if_pos h2]
  · rfl

theorem realNameChars_of_not_newline (cs : List Char)
    (h : ¬ cs.getLast? = some (Char.ofNat 10)) : realNameChars cs = realNameCore cs := by
  unfold realNameChars
  rw [if_neg h]

theorem realNameChars_of_newline (cs : List Char)
    (h : cs.getLast? = some (Char.ofNat 10)) :
    realNameChars cs = realNameCore cs.dropLast ++ [Char.ofNat 10] := by
  unfold realNameChars
  rw [if_pos h]

theorem getLast?_append_cons {α : Type} (l₁ : List α) (y : α) (l₂ : List α) :
    (l₁ ++ y :: l₂).getLast? = (y :: l₂).getLast? := by
  induction l₁ with
  | nil => rfl
  | cons a rest ih =>
    have h1 : (a :: rest) ++ y :: l₂ = a :: (rest ++ y :: l₂) := rfl
    rw [h1]
    cases hl : rest ++ y :: l₂ with
    | nil =>
      exact absurd hl (by cases rest <;> simp)
    | cons b t =>
      rw [List.getLast?_cons_cons, ← hl, ih]

theorem replaceColon_head_ne_dot (s : String) (h : s.data.head? ≠ some '.') :
    (replaceColon s).data.head? ≠ some '.' := by
  show (s.data.map (fun c => if c = ':' then '_' else c)).head? ≠ some '.'
  rw [List.head?_map]
  cases hh : s.data.head? with
  | none => simp
  | some c =>
    rw [hh] at h
    intro hcon
    have hfc : (if c = ':' then '_' else c) = '.' := by simpa using hcon
    by_cases hc : c = ':'
    · rw [if_pos hc] at hfc
      exact absurd hfc (by decide)
    · rw [if_neg hc] at hfc
      exact h (by rw [hfc])

theorem isPrefixOf_append_self (l r : List Char) : List.isPrefixOf l (l ++ r) = true := by
  induction l with
  | nil => cases r <;> rfl
  | cons c rest ih => simp [List.isPrefixOf, ih]

/-- Every character of a valid host name is from the class, except possibly a
single trailing newline admitted by `re.match`'s `$`. -/
theorem valid_host_chars (s : String) (hvalid : isValidHostName s = true) :
    ∀ c ∈ s.data, hostNameChar c = true ∨ c = '\n' := by
  unfold isValidHostName matchesWholePattern at hvalid
  simp only [Bool.and_eq_true] at hvalid
  intro c hc
  by_cases hlast : s.data.getLast? = some (Char.ofNat 10)
  · rw [if_pos hlast] at hvalid
    have hne : s.data ≠ [] := by
      intro h
      rw [h] at hlast
      simp at hlast
    have hsplit : s.data.dropLast ++ [s.data.getLast hne] = s.data :=
      List.dropLast_append_getLast hne
    rw [← hsplit] at hc
    rcases List.mem_append.mp hc with hmem | hmem
    · exact Or.inl (List.all_eq_true.mp hvalid.2 c hmem)
    · right
      have hc' : c = s.data.getLast hne := by simpa using hmem
      have : s.data.getLast hne = Char.ofNat 10 := by
        have := List.getLast?_eq_getLast s.data hne
        rw [this] at hlast
        exact Option.some.inj hlast
      rw [hc', this]
  · rw [if_neg hlast] at hvalid
    exact Or.inl (List.all_eq_true.mp hvalid.2 c hc)

theorem valid_host_nonempty (s : String) (hvalid : isValidHostName s = true) :
    s.data ≠ [] := by
  intro h
  unfold isValidHostName matchesWholePattern at hvalid
  rw [h] at hvalid
  simp at hvalid

/-- C5 counterexample: `a_1` is a valid host name, contains no colon (so it
satisfies the claim's colon condition), yet path derivation followed by
enumeration returns `a:1`, not the original name. -/
theorem claim_C5_counterexample :
    isValidHostName "a_1" = true ∧ hostColonCond "a_1" = true
    ∧ realNameOfDir (replaceColon "a_1") = "a:1"
    ∧ realNameOfDir (replaceColon "a_1") ≠ "a_1"
    ∧ Host.allNames "/r" { dirs := ["/r/" ++ replaceColon "a_1"], files := [] } = ["a:1"] := by
  decide

/-- C5 (amended): for every valid host name that does not begin with a dot
(hidden directories are skipped by the glob) and either has exactly one colon
immediately preceding a nonempty trailing run of digits, or has no colon and
does not end — up to one trailing newline — in an underscore followed by
digits, deriving the directory name and enumerating it back recovers the
original name. -/
theorem claim_C5_roundtrip_amended (s : String)
    (hvalid : isValidHostName s = true)
    (hdot : s.data.head? ≠ some '.')
    (hcond : (∃ a d : List Char, s.data = a ++ ':' :: d ∧ ':' ∉ a ∧ d ≠ [] ∧
                ∀ c ∈ d, c.isDigit = true)
      ∨ (':' ∉ s.data ∧ endsUnderscoreDigits s = false)) :
    realNameOfDir (replaceColon s) = s
    ∧ ∀ root : String, Host.allNames root
        { dirs := [root ++ "/" ++ replaceColon s], files := [] } = [s] := by
  have hrc : realNameOfDir (replaceColon s) = s := by
    rcases hcond with ⟨a, d, hs, hna, hne, hd⟩ | ⟨hnc, hend⟩
    · have hnd : ':' ∉ d := by
        intro hmem
        have := hd ':' hmem
        simp at this
      have hdata : (replaceColon s).data = a ++ '_' :: d := by
        show s.data.map (fun c => if c = ':' then '_' else c) = a ++ '_' :: d
        rw [hs]
        simp only [List.map_append, List.map_cons]
        rw [map_colon_id a hna, map_colon_id d hnd]
        simp
      have hnl : ¬ (a ++ '_' :: d).getLast? = some (Char.ofNat 10) := by
        rw [getLast?_append_cons]
        cases d with
        | nil => exact absurd rfl hne
        | cons c t =>
          rw [List.getLast?_cons_cons]
          have hne2 : (c :: t : List Char) ≠ [] := by simp
          rw [List.getLast?_eq_getLast _ hne2]
          intro hcon
          have hmem : (c :: t).getLast hne2 ∈ c :: t := List.getLast_mem hne2
          have hdig := hd _ hmem
          rw [Option.some.inj hcon] at hdig
          exact absurd hdig (by decide)
      unfold realNameOfDir
      rw [hdata, realNameChars_of_not_newline _ hnl, realNameCore_underscore a d hd hne,
        ← hs, string_mk_data]
    · have hdata : (replaceColon s).data = s.data := by
        show s.data.map (fun c => if c = ':' then '_' else c) = s.data
        rw [map_colon_id s.data hnc]
      unfold realNameOfDir
      rw [hdata]
      by_cases hnl : s.data.getLast? = some (Char.ofNat 10)
      · rw [realNameChars_of_newline _ hnl]
        unfold endsUnderscoreDigits at hend
        rw [if_pos hnl] at hend
        rw [realNameCore_id _ hend]
        have hne : s.data ≠ [] := by
          intro h0
          rw [h0] at hnl
          simp at hnl
        have hgl : s.data.getLast hne = Char.ofNat 10 := by
          have h1 := List.getLast?_eq_getLast s.data hne
          rw [h1] at hnl
          exact Option.some.inj hnl
        rw [← hgl, List.dropLast_append_getLast hne, string_mk_data]
      · rw [realNameChars_of_not_newline _ hnl]
        unfold endsUnderscoreDigits at hend
        rw [if_neg hnl] at hend
        rw [realNameCore_id _ hend, string_mk_data]
  refine ⟨hrc, ?_⟩
  intro root
  have hslash : ∀ c ∈ (replaceColon s).data, (c != '/') = true := by
    intro c hc
    have hc2 : c ∈ s.data.map (fun c => if c = ':' then '_' else c) := hc
    rcases List.mem_map.mp hc2 with ⟨c₀, hc₀, hfc⟩
    rcases valid_host_chars s hvalid c₀ hc₀ with hclass | hnl
    · by_cases hcolon : c₀ = ':'
      · rw [← hfc, if_pos hcolon]
        decide
      · rw [← hfc, if_neg hcolon]
        revert hclass
        unfold hostNameChar
        cases hcc : decide (c₀ = '/') with
        | false =>
          intro _
          simpa using of_decide_eq_false hcc
        | true =>
          have : c₀ = '/' := of_decide_eq_true hcc
          rw [this]
          intro hfalse
          simp at hfalse
    · by_cases hcolon : c₀ = ':'
      · rw [← hfc, if_pos hcolon]
        decide
      · rw [← hfc, if_neg hcolon, hnl]
        decide
  have hnonempty : (replaceColon s).data ≠ [] := by
    show s.data.map (fun c => if c = ':' then '_' else c) ≠ []
    intro h
    exact valid_host_nonempty s hvalid (List.map_eq_nil_iff.mp h)
  have hchild : FS.childDirNames
      { dirs := [root ++ "/" ++ replaceColon s], files := [] } root
      = [String.mk (replaceColon s).data] := by
    unfold FS.childDirNames
    simp only [List.filterMap]
    have hdata : (root ++ "/" ++ replaceColon s).data
        = (root ++ "/").data ++ (replaceColon s).data := by
      rw [show root ++ "/" ++ replaceColon s = (root ++ "/") ++ replaceColon s from rfl,
        strData_append]
    rw [hdata, isPrefixOf_append_self, List.drop_left]
    have hie : (replaceColon s).data.isEmpty = false := by
      cases h : (replaceColon s).data with
      | nil => exact absurd h hnonempty
      | cons c rest => rfl
    have hdhead : ((replaceColon s).data.head? != some '.') = true :=
      bne_iff_ne.mpr (replaceColon_head_ne_dot s hdot)
    simp [hie, List.all_eq_true.mpr hslash, hdhead]
  unfold Host.allNames
  rw [hchild]
  show List.map realNameOfDir (sortStrings [String.mk (replaceColon s).data])
      = [s]
  rw [show sortStrings [String.mk (replaceColon s).data]
      = [String.mk (replaceColon s).data] from rfl]
  rw [List.map_cons, List.map_nil, string_mk_data, hrc]

/-- Witness for the amended C5 at `example.com:8080`. -/
theorem claim_C5_roundtrip_amended_witness :
    realNameOfDir (replaceColon "example.com:8080") = "example.com:8080"
    ∧ ∀ root : String, Host.allNames root
        { dirs := [root ++ "/" ++ replaceColon "example.com:8080"], files := [] }
      = ["example.com:8080"] :=
  claim_C5_roundtrip_amended "example.com:8080" (by decide) (by decide)
    (Or.inl ⟨"example.com".data, "8080".data, by decide, by decide, by decide, by decide⟩)

/-! Cookie round-trip machinery: setting a cookie with a fresh name into a
well-keyed jar adds it without displacing anything. -/

theorem namesWF_setIn (ns : List (String × Cookie)) (c : Cookie)
    (h : ∀ nc ∈ ns, nc.1 = nc.2.name) :
    ∀ nc ∈ setIn ns c.name c, nc.1 = nc.2.name := by
  induction ns with
  | nil =>
    intro nc hnc
    simp [setIn] at hnc
    simp [hnc]
  | cons e rest ih =>
    intro nc hnc
    obtain ⟨k₀, v₀⟩ := e
    by_cases hk : k₀ = c.name
    · rw [show setIn ((k₀, v₀) :: rest) c.name c = (k₀, c) :: rest from by
        simp [setIn, hk]] at hnc
      rcases List.mem_cons.mp hnc with hh | hh
      · rw [hh]
        exact hk
      · exact h nc (List.mem_cons_of_mem _ hh)
    · rw [show setIn ((k₀, v₀) :: rest) c.name c = (k₀, v₀) :: setIn rest c.name c from by
        simp [setIn, hk]] at hnc
      rcases List.mem_cons.mp hnc with hh | hh
      · rw [hh]
        exact h (k₀, v₀) (List.mem_cons_self _ _)
      · exact ih (fun nc hnc => h nc (List.mem_cons_of_mem _ hnc)) nc hh

theorem pathsWF_setInWith (ps : List (String × List (String × Cookie))) (c : Cookie)
    (h : ∀ pn ∈ ps, ∀ nc ∈ pn.2, nc.1 = nc.2.name) :
    ∀ pn ∈ setInWith ps c.path [] (fun names => setIn names c.name c),
      ∀ nc ∈ pn.2, nc.1 = nc.2.name := by
  induction ps with
  | nil =>
    intro pn hpn
    simp [setInWith] at hpn
    rw [hpn]
    exact namesWF_setIn [] c (by simp)
  | cons e rest ih =>
    intro pn hpn
    obtain ⟨p₀, ns⟩ := e
    by_cases hp : p₀ = c.path
    · rw [show setInWith ((p₀, ns) :: rest) c.path [] (fun names => setIn names c.name c)
          = (p₀, setIn ns c.name c) :: rest from by simp [setInWith, hp]] at hpn
      rcases List.mem_cons.mp hpn with hh | hh
      · rw [hh]
        exact namesWF_setIn ns c (h (p₀, ns) (List.mem_cons_self _ _))
      · exact h pn (List.mem_cons_of_mem _ hh)
    · rw [show setInWith ((p₀, ns) :: rest) c.path [] (fun names => setIn names c.name c)
          = (p₀, ns) :: setInWith rest c.path [] (fun names => setIn names c.name c) from by
        simp [setInWith, hp]] at hpn
      rcases List.mem_cons.mp hpn with hh | hh
      · rw [hh]
        exact h (p₀, ns) (List.mem_cons_self _ _)
      · exact ih (fun pn hpn => h pn (List.mem_cons_of_mem _ hpn)) pn hh

theorem JarWF_setCookie (jar : Jar) (c : Cookie) (h : JarWF jar) :
    JarWF (jar.setCookie c) := by
  induction jar with
  | nil =>
    intro dp hdp
    simp [Jar.setCookie, setInWith] at hdp
    rw [hdp]
    exact pathsWF_setInWith [] c (by simp)
  | cons e rest ih =>
    intro dp hdp
    obtain ⟨d₀, ps⟩ := e
    by_cases hd : d₀ = c.domain
    · rw [show Jar.setCookie ((d₀, ps) :: rest) c
          = (d₀, setInWith ps c.path [] (fun names => setIn names c.name c)) :: rest from by
        simp [Jar.setCookie, setInWith, hd]] at hdp
      rcases List.mem_cons.mp hdp with hh | hh
      · rw [hh]
        exact pathsWF_setInWith ps c (h (d₀, ps) (List.mem_cons_self _ _))
      · exact h dp (List.mem_cons_of_mem _ hh)
    · rw [show Jar.setCookie ((d₀, ps) :: rest) c
          = (d₀, ps) :: Jar.setCookie rest c from by
        simp [Jar.setCookie, setInWith, hd]] at hdp
      rcases List.mem_cons.mp hdp with hh | hh
      · rw [hh]
        exact h (d₀, ps) (List.mem_cons_self _ _)
      · exact ih (fun dp hdp => h dp (List.mem_cons_of_mem _ hdp)) dp hh

theorem mem_map_snd_setIn_names (ns : List (String × Cookie)) (c : Cookie)
    (hwfn : ∀ nc ∈ ns, nc.1 = nc.2.name)
    (hfresh : ∀ x ∈ ns.map Prod.snd, x.name ≠ c.name) :
    (setIn ns c.name c).map Prod.snd = ns.map Prod.snd ++ [c] := by
  induction ns with
  | nil => rfl
  | cons e rest ih =>
    obtain ⟨k₀, v₀⟩ := e
    have hk : ¬ k₀ = c.name := by
      have h1 : k₀ = v₀.name := hwfn (k₀, v₀) (List.mem_cons_self _ _)
      have h2 : v₀.name ≠ c.name := hfresh v₀ (by simp)
      rw [h1]
      exact h2
    rw [show setIn ((k₀, v₀) :: rest) c.name c = (k₀, v₀) :: setIn rest c.name c from by
      simp [setIn, hk]]
    rw [List.map_cons,
      ih (fun nc hnc => hwfn nc (List.mem_cons_of_mem _ hnc))
         (fun x hx => hfresh x (by simp [hx]))]
    rfl

theorem pathsCookies_setInWith (ps : List (String × List (String × Cookie))) (c : Cookie)
    (hwfp : ∀ pn ∈ ps, ∀ nc ∈ pn.2, nc.1 = nc.2.name)
    (hfresh : ∀ x ∈ pathsCookies ps, x.name ≠ c.name) :
    ∀ y, y ∈ pathsCookies (setInWith ps c.path [] (fun names => setIn names c.name c)) ↔
      y ∈ pathsCookies ps ∨ y = c := by
  induction ps with
  | nil =>
    intro y
    simp [setInWith, pathsCookies, setIn]
  | cons e rest ih =>
    intro y
    obtain ⟨p₀, ns⟩ := e
    by_cases hp : p₀ = c.path
    · rw [show setInWith ((p₀, ns) :: rest) c.path [] (fun names => setIn names c.name c)
          = (p₀, setIn ns c.name c) :: rest from by simp [setInWith, hp]]
      rw [show pathsCookies ((p₀, setIn ns c.name c) :: rest)
          = (setIn ns c.name c).map Prod.snd ++ pathsCookies rest from by
        simp [pathsCookies]]
      rw [mem_map_snd_setIn_names ns c (hwfp (p₀, ns) (List.mem_cons_self _ _))
        (fun x hx => hfresh x (by
          rw [show pathsCookies ((p₀, ns) :: rest)
              = ns.map Prod.snd ++ pathsCookies rest from by simp [pathsCookies]]
          exact List.mem_append.mpr (Or.inl hx)))]
      rw [show pathsCookies ((p₀, ns) :: rest)
          = ns.map Prod.snd ++ pathsCookies rest from by simp [pathsCookies]]
      simp [List.mem_append]
      tauto
    · rw [show setInWith ((p₀, ns) :: rest) c.path [] (fun names => setIn names c.name c)
          = (p₀, ns) :: setInWith rest c.path [] (fun names => setIn names c.name c) from by
        simp [setInWith, hp]]
      rw [show pathsCookies ((p₀, ns) ::
            setInWith rest c.path [] (fun names => setIn names c.name c))
          = ns.map Prod.snd ++
            pathsCookies (setInWith rest c.path [] (fun names => setIn names c.name c)) from by
        simp [pathsCookies]]
      rw [show pathsCookies ((p₀, ns) :: rest)
          = ns.map Prod.snd ++ pathsCookies rest from by simp [pathsCookies]]
      have := ih (fun pn hpn => hwfp pn (List.mem_cons_of_mem _ hpn))
        (fun x hx => hfresh x (by
          rw [show pathsCookies ((p₀, ns) :: rest)
              = ns.map Prod.snd ++ pathsCookies rest from by simp [pathsCookies]]
          exact List.mem_append.mpr (Or.inr hx)))
      simp [List.mem_append, this y]
      tauto

theorem toList_setCookie_mem (jar : Jar) (c : Cookie) (hwf : JarWF jar)
    (hfresh : ∀ x ∈ jar.toList, x.name ≠ c.name) :
    ∀ y, y ∈ (jar.setCookie c).toList ↔ y ∈ jar.toList ∨ y = c := by
  induction jar with
  | nil =>
    intro y
    simp [Jar.setCookie, setInWith, setIn, Jar.toList]
  | cons e rest ih =>
    intro y
    obtain ⟨d₀, ps⟩ := e
    by_cases hd : d₀ = c.domain
    · rw [show Jar.setCookie ((d₀, ps) :: rest) c
          = (d₀, setInWith ps c.path [] (fun names => setIn names c.name c)) :: rest from by
        simp [Jar.setCookie, setInWith, hd]]
      rw [show Jar.toList ((d₀, setInWith ps c.path [] (fun names => setIn names c.name c))
            :: rest)
          = pathsCookies (setInWith ps c.path [] (fun names => setIn names c.name c))
            ++ Jar.toList rest from by simp [Jar.toList, pathsCookies]]
      rw [show Jar.toList ((d₀, ps) :: rest)
          = pathsCookies ps ++ Jar.toList rest from by simp [Jar.toList, pathsCookies]]
      have hmem := pathsCookies_setInWith ps c (hwf (d₀, ps) (List.mem_cons_self _ _))
        (fun x hx => hfresh x (by
          rw [show Jar.toList ((d₀, ps) :: rest)
              = pathsCookies ps ++ Jar.toList rest from by simp [Jar.toList, pathsCookies]]
          exact List.mem_append.mpr (Or.inl hx)))
      simp [List.mem_append, hmem y]
      tauto
    · rw [show Jar.setCookie ((d₀, ps) :: rest) c
          = (d₀, ps) :: Jar.setCookie rest c from by simp [Jar.setCookie, setInWith, hd]]
      rw [show Jar.toList ((d₀, ps) :: Jar.setCookie rest c)
          = pathsCookies ps ++ Jar.toList (Jar.setCookie rest c) from by
        simp [Jar.toList, pathsCookies]]
      rw [show Jar.toList ((d₀, ps) :: rest)
          = pathsCookies ps ++ Jar.toList rest from by simp [Jar.toList, pathsCookies]]
      have := ih (fun dp hdp => hwf dp (List.mem_cons_of_mem _ hdp))
        (fun x hx => hfresh x (by
          rw [show Jar.toList ((d₀, ps) :: rest)
              = pathsCookies ps ++ Jar.toList rest from by simp [Jar.toList, pathsCookies]]
          exact List.mem_append.mpr (Or.inr hx)))
      simp [List.mem_append, this y]
      tauto

theorem toList_foldl_setCookie_mem (l : List Cookie) (jar : Jar)
    (hwf : JarWF jar)
    (hfresh : ∀ c ∈ l, ∀ x ∈ jar.toList, x.name ≠ c.name)
    (hnodup : (l.map Cookie.name).Nodup) :
    ∀ y, y ∈ (l.foldl Jar.setCookie jar).toList ↔ y ∈ jar.toList ∨ y ∈ l := by
  induction l generalizing jar with
  | nil =>
    intro y
    simp
  | cons c rest ih =>
    intro y
    rw [List.map_cons, List.nodup_cons] at hnodup
    have hstep := toList_setCookie_mem jar c hwf
      (fun x hx => hfresh c (List.mem_cons_self _ _) x hx)
    have hfresh2 : ∀ c' ∈ rest, ∀ x ∈ (jar.setCookie c).toList, x.name ≠ c'.name := by
      intro c' hc' x hx
      rcases (hstep x).mp hx with hx2 | hx2
      · exact hfresh c' (List.mem_cons_of_mem _ hc') x hx2
      · rw [hx2]
        intro hcn
        exact hnodup.1 (by
          rw [hcn]
          exact List.mem_map.mpr ⟨c', hc', rfl⟩)
    have := ih (jar.setCookie c) (JarWF_setCookie jar c hwf) hfresh2 hnodup.2
    rw [List.foldl_cons, this y]
    simp [hstep y]
    tauto

theorem setIn_append_fresh {β : Type} (m : List (String × β)) (k : String) (v : β)
    (h : k ∉ m.map Prod.fst) : setIn m k v = m ++ [(k, v)] := by
  induction m with
  | nil => rfl
  | cons e rest ih =>
    obtain ⟨k₀, v₀⟩ := e
    have hk : ¬ k₀ = k := by
      intro he
      exact h (by simp [he])
    simp [setIn, hk]
    exact ih (fun hm => h (by simp [hm]))

theorem encode_fold_eq_map (cs : List Cookie) (init : List (String × CookieDict))
    (hfresh : ∀ c ∈ cs, c.name ∉ init.map Prod.fst)
    (hnodup : (cs.map Cookie.name).Nodup) :
    cs.foldl (fun m c => setIn m c.name (dictOfCookie c)) init
      = init ++ cs.map (fun c => (c.name, dictOfCookie c)) := by
  induction cs generalizing init with
  | nil => simp
  | cons c rest ih =>
    rw [List.map_cons, List.nodup_cons] at hnodup
    rw [List.foldl_cons, setIn_append_fresh init c.name (dictOfCookie c)
      (hfresh c (List.mem_cons_self _ _))]
    rw [ih (init ++ [(c.name, dictOfCookie c)]) ?_ hnodup.2]
    · simp
    · intro c' hc'
      rw [List.map_append]
      intro hm
      rcases List.mem_append.mp hm with hm | hm
      · exact hfresh c' (List.mem_cons_of_mem _ hc') hm
      · have : c'.name = c.name := by simpa using hm
        exact hnodup.1 (by
          rw [← this]
          exact List.mem_map.mpr ⟨c', hc', rfl⟩)

theorem cookiesEncode_eq_map (jar : Jar)
    (hnodup : (jar.toList.map Cookie.name).Nodup) :
    cookiesEncode jar = jar.toList.map (fun c => (c.name, dictOfCookie c)) := by
  rw [cookiesEncode, encode_fold_eq_map jar.toList [] (by simp) hnodup]
  simp

theorem cookieOfEntry_dictOf (c : Cookie) :
    cookieOfEntry (c.name, dictOfCookie c) = c := rfl

theorem jarOfStored_encode (jar : Jar) (hnodup : (jar.toList.map Cookie.name).Nodup) :
    jarOfStored (cookiesEncode jar) = jar.toList.foldl Jar.setCookie [] := by
  rw [cookiesEncode_eq_map jar hnodup, jarOfStored, List.foldl_map]
  rfl

theorem map_snd_filter_expired (ns : List (String × Cookie)) :
    (ns.filter (fun nc => !nc.2.expired)).map Prod.snd
      = (ns.map Prod.snd).filter (fun c => !c.expired) := by
  induction ns with
  | nil => rfl
  | cons e rest ih =>
    by_cases h : e.2.expired <;> simp [List.filter_cons, h, ih]

theorem pathsCookies_filterExpired (ps : List (String × List (String × Cookie))) :
    pathsCookies (ps.map (fun pn => (pn.1, pn.2.filter (fun nc => !nc.2.expired))))
      = (pathsCookies ps).filter (fun c => !c.expired) := by
  induction ps with
  | nil => rfl
  | cons pn rest ih =>
    obtain ⟨p₀, ns⟩ := pn
    simp only [pathsCookies, List.map_cons, List.flatMap_cons, List.filter_append] at *
    rw [map_snd_filter_expired, ih]

theorem toList_clearExpired (jar : Jar) :
    jar.clearExpired.toList = jar.toList.filter (fun c => !c.expired) := by
  induction jar with
  | nil => rfl
  | cons dp rest ih =>
    obtain ⟨d₀, ps⟩ := dp
    rw [show Jar.clearExpired ((d₀, ps) :: rest)
        = (d₀, ps.map (fun pn => (pn.1, pn.2.filter (fun nc => !nc.2.expired))))
          :: Jar.clearExpired rest from by simp [Jar.clearExpired]]
    rw [show Jar.toList ((d₀, ps.map (fun pn => (pn.1, pn.2.filter (fun nc => !nc.2.expired))))
          :: Jar.clearExpired rest)
        = pathsCookies (ps.map (fun pn => (pn.1, pn.2.filter (fun nc => !nc.2.expired))))
          ++ Jar.toList (Jar.clearExpired rest) from by simp [Jar.toList, pathsCookies]]
    rw [show Jar.toList ((d₀, ps) :: rest)
        = pathsCookies ps ++ Jar.toList rest from by simp [Jar.toList, pathsCookies]]
    rw [pathsCookies_filterExpired, ih, List.filter_append]

/-- C4 counterexample: a jar with two unexpired cookies named `a` on different
domains; the pair `(a, 1)` is present and unexpired in the original jar but
absent from the decoded round-trip jar, because the mapping is keyed by name. -/
theorem claim_C4_counterexample :
    (("a", "1") ∈ clashJar.pairs ∧ ∀ c ∈ clashJar.toList, c.expired = false)
    ∧ cookiesDecode (cookiesEncode clashJar)
        = .ok ((jarOfStored (cookiesEncode clashJar)).clearExpired,
               clearedValues (cookiesEncode clashJar))
    ∧ ("a", "1") ∉ Jar.pairs ((jarOfStored (cookiesEncode clashJar)).clearExpired) := by
  decide

/-- C4 (amended): for jars in which no two cookies share a name, encoding to
the session mapping and decoding back yields a jar whose (name, value) pairs
are exactly those of the original minus the already-expired cookies, the
decoder purging expired cookies before returning. -/
theorem claim_C4_cookie_roundtrip (jar : Jar)
    (hnodup : (jar.toList.map Cookie.name).Nodup) :
    cookiesDecode (cookiesEncode jar)
      = .ok ((jarOfStored (cookiesEncode jar)).clearExpired,
             clearedValues (cookiesEncode jar))
    ∧ (∀ p, p ∈ Jar.pairs ((jarOfStored (cookiesEncode jar)).clearExpired) ↔
        p ∈ (jar.toList.filter (fun c => !c.expired)).map (fun c => (c.name, c.value))) := by
  have hwfenc : ∀ e ∈ cookiesEncode jar, e.2.value?.isSome = true := by
    rw [cookiesEncode_eq_map jar hnodup]
    intro e he
    rcases List.mem_map.mp he with ⟨c, hc, he⟩
    rw [← he]
    rfl
  refine ⟨cookiesDecode_ok _ hwfenc, ?_⟩
  intro p
  have hjar : jarOfStored (cookiesEncode jar) = jar.toList.foldl Jar.setCookie [] :=
    jarOfStored_encode jar hnodup
  have hmem : ∀ y, y ∈ (jar.toList.foldl Jar.setCookie []).toList ↔ y ∈ jar.toList := by
    intro y
    have := toList_foldl_setCookie_mem jar.toList []
      (by intro dp hdp; simp at hdp)
      (by intro c hc x hx; simp [Jar.toList] at hx) hnodup y
    simpa [Jar.toList] using this
  rw [hjar, Jar.pairs, toList_clearExpired]
  constructor
  · intro hp
    rcases List.mem_map.mp hp with ⟨c, hc, hpc⟩
    rcases List.mem_filter.mp hc with ⟨hcl, hexp⟩
    exact List.mem_map.mpr ⟨c, List.mem_filter.mpr ⟨(hmem c).mp hcl, hexp⟩, hpc⟩
  · intro hp
    rcases List.mem_map.mp hp with ⟨c, hc, hpc⟩
    rcases List.mem_filter.mp hc with ⟨hcl, hexp⟩
    exact List.mem_map.mpr ⟨c, List.mem_filter.mpr ⟨(hmem c).mpr hcl, hexp⟩, hpc⟩

/-- Witness for the amended C4 on a jar with two distinct-name cookies, one
expired. -/
theorem claim_C4_cookie_roundtrip_witness :
    cookiesDecode (cookiesEncode witJar)
      = .ok ((jarOfStored (cookiesEncode witJar)).clearExpired,
             clearedValues (cookiesEncode witJar))
    ∧ (∀ p, p ∈ Jar.pairs ((jarOfStored (cookiesEncode witJar)).clearExpired) ↔
        p ∈ (witJar.toList.filter (fun c => !c.expired)).map (fun c => (c.name, c.value))) :=
  claim_C4_cookie_roundtrip witJar (by decide)

end Httpie
